import Mathlib

/-!
# Verification of the Parts-AI image search and download backend

Shallow embedding of `backend/server.py` (relevance scoring, image
selection, exclusion filtering, filename generation, the single-image
fetcher, the zip archiver, the download-job state machine and the job
tracker), together with proofs about the spec's claims C1-C10.

Python strings are modelled as Lean `String`s; Python `needle in hay`
is modelled by an explicit contiguous-substring check on the character
lists; Python `str.lower` is modelled by ASCII character lowering;
Python dict `.get` with a default is modelled by `Option.getD`.
Scores are integers (every increment in the source is a whole number).
-/

namespace PartsAI

/-- `charsIsPrefix needle hay`: `needle` is a prefix of `hay`. -/
def charsIsPrefix : List Char → List Char → Bool
  | [], _ => true
  | _ :: _, [] => false
  | a :: as, b :: bs => a == b && charsIsPrefix as bs

/-- `charsContains needle hay`: `needle` occurs contiguously in `hay`
(the semantics of Python's `needle in hay` on strings). -/
def charsContains (needle : List Char) : List Char → Bool
  | [] => charsIsPrefix needle []
  | c :: rest => charsIsPrefix needle (c :: rest) || charsContains needle rest

/-- Python `needle in hay` for strings. -/
def pyContains (hay needle : String) : Bool :=
  charsContains needle.data hay.data

/-- Python `str.lower()` (ASCII portion). -/
def pyLower (s : String) : String :=
  ⟨s.data.map Char.toLower⟩

/-- Python `s.replace("-", "").replace(" ", "")`. -/
def pyRemoveDashSpace (s : String) : String :=
  ⟨s.data.filter (fun c => !(c == '-') && !(c == ' '))⟩

/-- Python `s[:100]` (used to truncate exception messages). -/
def truncate100 (s : String) : String :=
  ⟨s.data.take 100⟩

/-- Decimal digit character for a digit value `0..9`. -/
def digitChar : Nat → Char
  | 0 => '0' | 1 => '1' | 2 => '2' | 3 => '3' | 4 => '4'
  | 5 => '5' | 6 => '6' | 7 => '7' | 8 => '8' | _ => '9'

/-- Helper for `natDigits`: structural recursion on a fuel argument so
the definition reduces inside the kernel (`n` itself is enough fuel,
because `n / 10 < n`). -/
def natDigitsAux : Nat → Nat → List Char
  | _, 0 => []
  | 0, _ + 1 => []
  | fuel + 1, n + 1 =>
    natDigitsAux fuel ((n + 1) / 10) ++ [digitChar ((n + 1) % 10)]

/-- Decimal digit list of a natural number (empty for 0). -/
def natDigits (n : Nat) : List Char := natDigitsAux n n

/-- Python `str(n)` / f-string rendering of a non-negative integer. -/
def natStr (n : Nat) : String :=
  if n = 0 then "0" else ⟨natDigits n⟩

/-- One raw hit from the image-search provider, i.e. one entry of
`results["images_results"]`.  Keys whose presence matters (because the
source chains `dict.get` defaults on them) are `Option`s; `title`,
`source` and `thumbnail` are read with default `""` everywhere, so they
are plain strings; the dimensions are read with default `0` in scoring
and passed through in conversion, hence `Option Nat`. -/
structure RawHit where
  title : String
  source : String
  original : Option String
  link : Option String
  thumbnail : String
  original_width : Option Nat
  original_height : Option Nat
deriving Repr, DecidableEq

/-- `ImageResult` pydantic model. -/
structure ImageResult where
  title : String
  original_url : String
  thumbnail_url : String
  source : String
  width : Option Nat
  height : Option Nat
deriving Repr, DecidableEq

/-- `PartSearchResult` pydantic model. -/
structure PartSearchResult where
  part_number : String
  search_query : String
  images : List ImageResult
  search_success : Bool
  error_message : Option String
deriving Repr, DecidableEq

/-- `DownloadResult` pydantic model. -/
structure DownloadResult where
  part_number : String
  image_url : String
  filename : String
  success : Bool
  error_message : Option String
  file_size : Option Nat
deriving Repr, DecidableEq

/-! ## Relevance scoring (`GoogleImageSearchService._score_image_relevance`) -/

/-- `part_keywords` list from `_score_image_relevance`. -/
def part_keywords : List String :=
  ["transformer", "relay", "contactor", "breaker", "component",
   "electrical", "industrial", "genuine", "oem", "original",
   "schneider", "abb", "siemens", "eocr", "current"]

/-- `industrial_sources` list from `_score_image_relevance`. -/
def industrial_sources : List String :=
  ["alliance", "automation", "industrial", "electric", "schneider",
   "abb.com", "siemens", "rockwell", "eaton", "ge.com", "westinghouse",
   "technical", "catalog", "datasheet", "spec"]

/-- `trusted_sources` list from `_score_image_relevance`. -/
def trusted_sources : List String :=
  ["ebay", "amazon", "digikey", "mouser", "newark", "rs-online",
   "farnell", "allied", "grainger"]

/-- `avoid_keywords` list from `_score_image_relevance`. -/
def avoid_keywords : List String :=
  ["logo", "banner", "advertisement", "ad", "promo", "sale",
   "coupon", "catalog", "manual", "diagram", "schematic"]

/-- The `for source in industrial_sources` loop.  In the source the loop
variable `source` shadows the hit's source label, so the test
`if source in source` compares the loop variable with itself; on a
failing test the loop continues with the variable rebound.  Returns the
score increment together with the final value of the variable `source`
after the loop. -/
def industrialLoop : List String → String → Int × String
  | [], sourceVar => (0, sourceVar)
  | s :: rest, _ => if pyContains s s then (20, s) else industrialLoop rest s

/-- The `for trusted in trusted_sources` loop: tests `trusted in source`
against the current value of the variable `source` (which, after the
industrial loop, is the last value of that loop's variable). -/
def trustedLoop : List String → String → Int
  | [], _ => 0
  | t :: rest, sourceVar =>
    if pyContains sourceVar t then 10 else trustedLoop rest sourceVar

/-- `GoogleImageSearchService._score_image_relevance`. -/
def score_image_relevance (image_data : RawHit) (part_number : String)
    (manufacturer : Option String) : Int :=
  let score : Int := 0
  let title := pyLower image_data.title
  let source := pyLower image_data.source
  -- part number match in title (highest priority)
  let part_clean := pyRemoveDashSpace (pyLower part_number)
  let score :=
    if pyContains (pyRemoveDashSpace title) part_clean then score + 50
    else if pyContains title (pyLower part_number) then score + 30
    else score
  -- manufacturer match (Python `if manufacturer and ...`: empty string is falsy)
  let score :=
    match manufacturer with
    | some m => if m ≠ "" ∧ pyContains title (pyLower m) then score + 20 else score
    | none => score
  -- relevant keywords in title
  let score := part_keywords.foldl
    (fun sc keyword => if pyContains title keyword then sc + 8 else sc) score
  -- industrial sources loop (loop variable shadows `source`)
  let ind := industrialLoop industrial_sources source
  let score := score + ind.1
  -- trusted sources loop, reading the shadowed variable
  let score := score + trustedLoop trusted_sources ind.2
  -- penalize irrelevant content
  let score := avoid_keywords.foldl
    (fun sc avoid => if pyContains title avoid then sc - 10 else sc) score
  -- image dimensions (`if width and height`: zero is falsy)
  let width := image_data.original_width.getD 0
  let height := image_data.original_height.getD 0
  let score :=
    if width ≠ 0 ∧ height ≠ 0 then
      if 200 ≤ width ∧ width ≤ 1000 ∧ 200 ≤ height ∧ height ≤ 1000 then score + 10
      else if width < 100 ∨ height < 100 then score - 15
      else if width > 2000 ∨ height > 2000 then score - 5
      else score
    else score
  max 0 score

/-! ## Selection (`GoogleImageSearchService._select_best_images`) -/

/-- Stable descending insertion by score: the element is placed after
every already-placed element of greater-or-equal score. -/
def insertDesc (x : Int × RawHit) : List (Int × RawHit) → List (Int × RawHit)
  | [] => [x]
  | y :: ys => if x.1 ≤ y.1 then y :: insertDesc x ys else x :: y :: ys

/-- `scored_images.sort(key=lambda x: x[0], reverse=True)`: a stable
sort, descending by score, ties kept in input order. -/
def sortByScoreDesc (l : List (Int × RawHit)) : List (Int × RawHit) :=
  l.foldl (fun acc x => insertDesc x acc) []

/-- The admission loop of `_select_best_images`: break once `max_images`
hits are selected; admit a hit only if its score exceeds 10 and fewer
than 2 already-selected hits share its (lower-cased) source. -/
def selectLoop (max_images : Nat) : List (Int × RawHit) → List RawHit → List RawHit
  | [], selected => selected
  | (score, img) :: rest, selected =>
    if selected.length ≥ max_images then selected
    else
      let source := pyLower img.source
      let source_count :=
        (selected.filter (fun sel_img => pyLower sel_img.source == source)).length
      if score > 10 ∧ source_count < 2 then
        selectLoop max_images rest (selected ++ [img])
      else
        selectLoop max_images rest selected

/-- `GoogleImageSearchService._select_best_images`. -/
def select_best_images (images : List RawHit) (part_number : String)
    (manufacturer : Option String) (max_images : Nat) : List RawHit :=
  let scored_images := images.map
    (fun img => (score_image_relevance img part_number manufacturer, img))
  let sorted := sortByScoreDesc scored_images
  selectLoop max_images sorted []

/-! ## Exclusion filter and the re-process pipeline -/

/-- `GoogleImageSearchService._filter_previous_images`.  Python's
`if not exclude_urls` guard treats `None` and `[]` alike; both are
modelled by the empty list.  Set membership in `exclude_set` coincides
with list membership. -/
def filter_previous_images (images : List RawHit) (exclude_urls : List String) :
    List RawHit :=
  if exclude_urls.isEmpty then images
  else
    images.filter (fun img =>
      let original_url := img.original.getD ""
      let link_url := img.link.getD ""
      !(exclude_urls.contains original_url) && !(exclude_urls.contains link_url))

/-- Conversion of a raw hit into an `ImageResult`: the
`original_url` is `img.get("original", img.get("link", ""))`, i.e. the
`original` value when the key is present, otherwise the `link` value,
otherwise `""`. -/
def toImageResult (img : RawHit) : ImageResult :=
  { title := img.title
    original_url := img.original.getD (img.link.getD "")
    thumbnail_url := img.thumbnail
    source := img.source
    width := img.original_width
    height := img.original_height }

/-- The success path of
`GoogleImageSearchService.reprocess_part_images` after the provider
returned `raw_images` for the query `q` (the provider call itself and
its error path are external I/O): filter out previously delivered
URLs, select the best images, convert to `ImageResult`s. -/
def reprocess_pipeline (raw_images : List RawHit) (part_number : String)
    (manufacturer : Option String) (num_results : Nat)
    (exclude_urls : List String) (q : String) : PartSearchResult :=
  let filtered_images := filter_previous_images raw_images exclude_urls
  let best_images := select_best_images filtered_images part_number manufacturer num_results
  { part_number := part_number
    search_query := q
    images := best_images.map toImageResult
    search_success := true
    error_message := none }

/-! ## The fetcher (`AsyncImageDownloader.download_image`) -/

/-- What one HTTP GET produced: a response with status and body bytes,
a timeout, or any other transport/IO exception with its message. -/
inductive HttpOutcome where
  | response (status : Nat) (content : List Nat)
  | timeout
  | failure (msg : String)
deriving Repr, DecidableEq

/-- `AsyncImageDownloader.download_image`, as a function of the HTTP
outcome and of an oracle `validImage` standing for "PIL can open the
written file" (`Image.open` succeeding).  Local storage is modelled by
the content stored at the assigned filename: `fileBefore` is the
content there before the call and the second component of the result is
the content there after the call.  After the 200-branch write the file
exists, so the `filepath.exists()` conjunct of the size check holds. -/
def download_image (validImage : List Nat → Bool) (outcome : HttpOutcome)
    (url filename : String) (fileBefore : Option (List Nat)) :
    DownloadResult × Option (List Nat) :=
  match outcome with
  | .response status content =>
    if status = 200 then
      -- file written
      if content.length > 1000 then  -- `filepath.exists() and len(content) > 1000`
        if validImage content then
          ({ part_number := "", image_url := url, filename := filename,
             success := true, error_message := none,
             file_size := some content.length }, some content)
        else
          -- `filepath.unlink(missing_ok=True)`
          ({ part_number := "", image_url := url, filename := filename,
             success := false, error_message := some "Invalid image format",
             file_size := none }, none)
      else
        ({ part_number := "", image_url := url, filename := filename,
           success := false, error_message := some "File too small or empty",
           file_size := none }, none)
    else
      ({ part_number := "", image_url := url, filename := filename,
         success := false, error_message := some ("HTTP " ++ natStr status),
         file_size := none }, fileBefore)
  | .timeout =>
    ({ part_number := "", image_url := url, filename := filename,
       success := false, error_message := some "Timeout",
       file_size := none }, fileBefore)
  | .failure msg =>
    ({ part_number := "", image_url := url, filename := filename,
       success := false, error_message := some ("Error: " ++ truncate100 msg),
       file_size := none }, fileBefore)

/-! ## Filename generation (`generate_filename`) -/

/-- The extensions accepted by `generate_filename`. -/
def ext_whitelist : List String := [".jpg", ".jpeg", ".png", ".webp", ".gif"]

/-- Characters of `s` strictly before the first occurrence of `c`. -/
def takeUntilChar (c : Char) : List Char → List Char
  | [] => []
  | x :: xs => if x == c then [] else x :: takeUntilChar c xs

/-- Characters of `s` strictly after the last occurrence of `c`
(all of `s` when `c` does not occur). -/
def afterLastChar (c : Char) (l : List Char) : List Char :=
  (takeUntilChar c l.reverse).reverse

/-- Embedding of `urllib.parse.urlparse(url).path` for the URL shapes
this backend receives (absolute `scheme://host/path` URLs and bare
paths): drop the fragment and the query, drop a `scheme:` prefix when a
colon occurs before the first slash, and when the remainder starts with
`//` drop the authority up to the next `/`. -/
def urlPathOf (url : String) : String :=
  let noFrag := takeUntilChar '#' url.data
  let noQuery := takeUntilChar '?' noFrag
  let afterScheme :=
    if (takeUntilChar '/' noQuery).contains ':' then
      (noQuery.dropWhile (fun ch => !(ch == ':'))).drop 1
    else noQuery
  match afterScheme with
  | '/' :: '/' :: rest => ⟨(rest.dropWhile (fun ch => !(ch == '/')))⟩
  | l => ⟨l⟩

/-- Embedding of `pathlib.Path(p).suffix`: the part of the last `/`-
separated component from its last dot on, provided that dot is neither
the component's first nor its last character. -/
def pathSuffix (p : String) : String :=
  let name := afterLastChar '/' p.data
  let afterDot := afterLastChar '.' name
  if afterDot.length = name.length then ""  -- no dot in the component
  else
    let i := name.length - afterDot.length - 1  -- index of the last dot
    if 0 < i ∧ afterDot ≠ [] then ⟨name.drop i⟩ else ""

/-- The extension chosen by `generate_filename` for a URL: the lower-
cased suffix of the URL's path when it is one of the whitelisted image
extensions, else `".jpg"`. -/
def extFromUrl (url : String) : String :=
  let extension := pyLower (pathSuffix (urlPathOf url))
  if ext_whitelist.contains extension then extension else ".jpg"

/-- `"".join(c if c.isalnum() or c in "._-" else "_" for c in part_number)`. -/
def sanitizePart (part_number : String) : String :=
  ⟨part_number.data.map (fun c =>
    if c.isAlphanum || c == '.' || c == '_' || c == '-' then c else '_')⟩

/-- `generate_filename(part_number, image_index, url)`:
`f"{clean_part}_{image_index + 1}{extension}"`. -/
def generate_filename (part_number : String) (image_index : Nat) (url : String) :
    String :=
  sanitizePart part_number ++ "_" ++ natStr (image_index + 1) ++ extFromUrl url

/-! ## The archiver (`create_zip_file`) -/

/-- Append a result to its part number's group, preserving the
insertion order of both groups and members (Python dicts preserve
insertion order). -/
def addToGroups (r : DownloadResult) :
    List (String × List DownloadResult) → List (String × List DownloadResult)
  | [] => [(r.part_number, [r])]
  | g :: gs =>
    if g.1 = r.part_number then (g.1, g.2 ++ [r]) :: gs
    else g :: addToGroups r gs

/-- The `part_groups` dict built at the top of `create_zip_file`:
successful results with a non-empty filename, grouped by part number. -/
def part_groups (download_results : List DownloadResult) :
    List (String × List DownloadResult) :=
  download_results.foldl
    (fun gs r => if r.success && !(r.filename == "") then addToGroups r gs else gs) []

/-- `Path(result.filename).suffix or '.jpg'`. -/
def zipEntryExt (filename : String) : String :=
  if pathSuffix filename = "" then ".jpg" else pathSuffix filename

/-- `create_zip_file`, returning the list of entry names written into
the archive, in order.  `fileExists` models `file_path.exists()` on
local storage; a result whose file is missing is skipped (its
`enumerate` index is still consumed). -/
def create_zip_file (fileExists : String → Bool)
    (download_results : List DownloadResult) : List String :=
  (part_groups download_results).flatMap (fun g =>
    let clean_part_folder := sanitizePart g.1
    g.2.enum.filterMap (fun p =>
      if fileExists p.2.filename then
        some (clean_part_folder ++ "/" ++ clean_part_folder ++ "_" ++
              natStr (p.1 + 1) ++ zipEntryExt p.2.filename)
      else none))

/-- Modelled from the spec (section 4.6 / C7 sources): the archive
contents the spec describes — one entry per successful result, grouped
by owner, named `sanitizedOwner/sanitizedOwner_<ordinal><ext>` with
ordinals `1..n` per owner.  Stated for comparison with
`create_zip_file`. -/
def specArchiveEntries (download_results : List DownloadResult) : List String :=
  (part_groups download_results).flatMap (fun g =>
    let clean := sanitizePart g.1
    g.2.enum.map (fun p =>
      clean ++ "/" ++ clean ++ "_" ++ natStr (p.1 + 1) ++ zipEntryExt p.2.filename))

/-! ## The download endpoint's work list (`download_images`) -/

/-- The `if request.part_numbers:` filter of `download_images`
(`None` and the empty list are both falsy and skip the filter). -/
def filterByParts (search_results : List PartSearchResult)
    (part_numbers : Option (List String)) : List PartSearchResult :=
  match part_numbers with
  | some pns =>
    if pns.isEmpty then search_results
    else search_results.filter (fun r => pns.contains r.part_number)
  | none => search_results

/-- The inner `for i, image in enumerate(result.images)` loop of
`download_images`, carrying the running `enumerate` index: images with
an empty `original_url` are skipped but still consume an index. -/
def imagesLoop (part_number : String) : Nat → List ImageResult →
    List (String × String × String)
  | _, [] => []
  | i, image :: rest =>
    if image.original_url ≠ "" then
      (part_number, image.original_url,
        generate_filename part_number i image.original_url)
        :: imagesLoop part_number (i + 1) rest
    else imagesLoop part_number (i + 1) rest

/-- The outer `for result in search_results` loop of `download_images`,
keeping only successful searches. -/
def partsLoop : List PartSearchResult → List (String × String × String)
  | [] => []
  | r :: rest =>
    (if r.search_success then imagesLoop r.part_number 0 r.images else [])
      ++ partsLoop rest

/-- `images_to_download` as prepared by the `download_images` endpoint:
triples `(part_number, image_url, filename)`. -/
def images_to_download (search_results : List PartSearchResult)
    (part_numbers : Option (List String)) : List (String × String × String) :=
  partsLoop (filterByParts search_results part_numbers)

/-! ## The download-job state machine (`download_images` +
`download_images_background`) -/

/-- The observable fields of one `download_tasks` entry for a download
job (the `DownloadResponse`-relevant fields). -/
structure JobState where
  status : String
  total_images : Nat
  downloaded_images : Nat
  results : List DownloadResult
  zip_file : Option String
deriving Repr, DecidableEq

/-- The successive observable states of a download job's tracker entry:
`"started"` written by the `download_images` endpoint, `"processing"`
written when the background task begins, then either the `"completed"`
update (results recorded, successful count, zip name exactly when some
download succeeded) or — when an orchestration-level exception strikes
(modelled by `orch_failure`) — the `"failed"` update, which zeroes
`downloaded_images` and leaves the (still empty) results list in
place. -/
def download_job_states (download_id : String) (total : Nat)
    (results : List DownloadResult) (orch_failure : Bool) : List JobState :=
  let s0 : JobState :=
    { status := "started", total_images := total, downloaded_images := 0,
      results := [], zip_file := none }
  let s1 : JobState := { s0 with status := "processing" }
  if orch_failure then
    [s0, s1, { s1 with status := "failed", downloaded_images := 0 }]
  else
    let successful_downloads := results.filter (fun r => r.success)
    let zip_filename : Option String :=
      if successful_downloads.isEmpty then none
      else some ("parts_images_" ++ download_id ++ ".zip")
    [s0, s1,
     { status := "completed", total_images := total,
       downloaded_images := successful_downloads.length,
       results := results, zip_file := zip_filename }]

/-! ## The job tracker (`download_tasks`) and the status endpoint -/

/-- One entry of the `download_tasks` dict.  Every key any writer ever
sets is an optional field; readers use `dict.get` with defaults. -/
structure TaskEntry where
  status : Option String
  total_images : Option Nat
  downloaded_images : Option Nat
  results : Option (List DownloadResult)
  zip_file : Option String
  search_results : Option (List PartSearchResult)
deriving Repr, DecidableEq

/-- The entry `search_part_images` stores under the fresh search id:
`{"search_results": results, "created_at": ..., "status": "completed"}`. -/
def search_task_entry (results : List PartSearchResult) : TaskEntry :=
  { status := some "completed", total_images := none, downloaded_images := none,
    results := none, zip_file := none, search_results := some results }

/-- `DownloadResponse` pydantic model. -/
structure DownloadResponse where
  download_id : String
  status : String
  total_images : Nat
  downloaded_images : Nat
  results : List DownloadResult
  zip_file : Option String
deriving Repr, DecidableEq

/-- Association-list lookup standing for `download_tasks[id]` access. -/
def lookupTask (tasks : List (String × TaskEntry)) (id : String) :
    Option TaskEntry :=
  match tasks with
  | [] => none
  | (k, v) :: rest => if k = id then some v else lookupTask rest id

/-- `get_download_status`: 404 when the id is absent from
`download_tasks`, otherwise a `DownloadResponse` built with
`task_data.get(..., default)` reads. -/
def get_download_status (tasks : List (String × TaskEntry))
    (download_id : String) : Except String DownloadResponse :=
  match lookupTask tasks download_id with
  | none => .error "Download ID not found"
  | some task_data =>
    .ok { download_id := download_id
          status := task_data.status.getD "unknown"
          total_images := task_data.total_images.getD 0
          downloaded_images := task_data.downloaded_images.getD 0
          results := task_data.results.getD []
          zip_file := task_data.zip_file }

/-! ## Proof-side helper definitions -/

/-- Decimal value of a digit list (decoder used to prove `natDigits`
injective). -/
def digitsVal (l : List Char) : Nat :=
  l.foldl (fun a c => a * 10 + (c.toNat - 48)) 0

/-- The common shape of every generated filename:
`clean ++ "_" ++ str(k + 1) ++ ext`. -/
def fname (clean : String) (k : Nat) (e : String) : String :=
  clean ++ "_" ++ natStr (k + 1) ++ e

/-- Concrete hit A of the spec's CT-100 scenario. -/
def hitA : RawHit :=
  ⟨"CT-100 Schneider industrial contactor", "siteA",
   some "http://a/x.jpg", some "http://a", "t", none, none⟩

/-- Concrete hit B of the spec's CT-100 scenario. -/
def hitB : RawHit :=
  ⟨"ct100 logo banner", "siteB", some "http://b/y.jpg", some "http://b",
   "t", none, none⟩

/-- A concrete raw hit whose original URL is on an exclusion list. -/
def hitBad : RawHit :=
  ⟨"t", "s", some "http://bad", some "http://bad2", "th", none, none⟩

/-- A concrete successful download result. -/
def resOk : DownloadResult := ⟨"P", "http://x/a.jpg", "P_1.jpg", true, none, some 2000⟩

/-- A concrete search result for part `"P"`. -/
def rP : PartSearchResult :=
  ⟨"P", "q", [⟨"t", "http://x/a.jpg", "th", "s", none, none⟩], true, none⟩

/-- A concrete search result for part `"Q"`. -/
def rQ : PartSearchResult :=
  ⟨"Q", "q", [⟨"t", "http://x/b.png", "th", "s", none, none⟩], true, none⟩

/-! ## Lemmas: decimal rendering -/

theorem digitChar_spec :
    ∀ d, d < 10 → (digitChar d).isDigit = true ∧ (digitChar d).toNat - 48 = d := by
  decide

theorem digitsVal_append (l : List Char) (c : Char) :
    digitsVal (l ++ [c]) = digitsVal l * 10 + (c.toNat - 48) := by
  simp [digitsVal, List.foldl_append]

theorem natDigitsAux_fuel :
    ∀ (fuel fuel' n : Nat), n ≤ fuel → n ≤ fuel' →
      natDigitsAux fuel n = natDigitsAux fuel' n := by
  intro fuel
  induction fuel with
  | zero =>
    intro fuel' n hn _
    match n, hn with
    | 0, _ =>
      cases fuel' <;> rfl
  | succ f ih =>
    intro fuel' n hn hn'
    match n with
    | 0 => cases fuel' <;> rfl
    | m + 1 =>
      match fuel' with
      | 0 => omega
      | f' + 1 =>
        show natDigitsAux f ((m + 1) / 10) ++ _
            = natDigitsAux f' ((m + 1) / 10) ++ _
        have hd : (m + 1) / 10 < m + 1 := Nat.div_lt_self (Nat.succ_pos m) (by omega)
        rw [ih f' ((m + 1) / 10) (by omega) (by omega)]

theorem natDigits_zero : natDigits 0 = [] := rfl

theorem natDigits_succ (m : Nat) :
    natDigits (m + 1) = natDigits ((m + 1) / 10) ++ [digitChar ((m + 1) % 10)] := by
  show natDigitsAux m ((m + 1) / 10) ++ [digitChar ((m + 1) % 10)] = _
  have hd : (m + 1) / 10 < m + 1 := Nat.div_lt_self (Nat.succ_pos m) (by omega)
  rw [natDigitsAux_fuel m ((m + 1) / 10) ((m + 1) / 10) (by omega) (Nat.le_refl _)]
  rfl

theorem natDigits_val : ∀ n, digitsVal (natDigits n) = n := by
  intro n
  induction n using Nat.strong_induction_on with
  | _ n ih =>
    match n with
    | 0 => rw [natDigits_zero]; rfl
    | m + 1 =>
      rw [natDigits_succ, digitsVal_append,
        ih ((m + 1) / 10) (Nat.div_lt_self (Nat.succ_pos m) (by omega)),
        (digitChar_spec _ (Nat.mod_lt _ (by omega))).2]
      omega

theorem natDigits_inj {a b : Nat} (h : natDigits a = natDigits b) : a = b := by
  have ha := natDigits_val a
  rw [h, natDigits_val] at ha
  omega

theorem natDigits_isDigit : ∀ n, ∀ c ∈ natDigits n, c.isDigit = true := by
  intro n
  induction n using Nat.strong_induction_on with
  | _ n ih =>
    match n with
    | 0 => intro c hc; simp [natDigits, natDigitsAux] at hc
    | m + 1 =>
      intro c hc
      rw [natDigits_succ] at hc
      rcases List.mem_append.1 hc with h | h
      · exact ih ((m + 1) / 10) (Nat.div_lt_self (Nat.succ_pos m) (by omega)) c h
      · rw [List.mem_singleton.1 h]
        exact (digitChar_spec _ (Nat.mod_lt _ (by omega))).1

theorem natStr_data (n : Nat) : (natStr (n + 1)).data = natDigits (n + 1) := by
  simp [natStr]

theorem natStr_no_underscore (n : Nat) : '_' ∉ (natStr (n + 1)).data := by
  rw [natStr_data]
  intro h
  exact absurd (natDigits_isDigit (n + 1) _ h) (by decide)

/-! ## Lemmas: generated filenames are determined by owner and index -/

theorem append_underscore_inj :
    ∀ (a1 : List Char) {a2 b1 b2 : List Char}, '_' ∉ b1 → '_' ∉ b2 →
      a1 ++ '_' :: b1 = a2 ++ '_' :: b2 → a1 = a2 ∧ b1 = b2 := by
  intro a1
  induction a1 with
  | nil =>
    intro a2 b1 b2 h1 _ heq
    cases a2 with
    | nil =>
      simp only [List.nil_append, List.cons.injEq] at heq
      exact ⟨rfl, heq.2⟩
    | cons d ds =>
      simp only [List.nil_append, List.cons_append, List.cons.injEq] at heq
      exact absurd (heq.2 ▸ List.mem_append_right ds (List.mem_cons_self '_' b2)) h1
  | cons c cs ih =>
    intro a2 b1 b2 h1 h2 heq
    cases a2 with
    | nil =>
      simp only [List.cons_append, List.nil_append, List.cons.injEq] at heq
      exact absurd (heq.2 ▸ List.mem_append_right cs (List.mem_cons_self '_' b1)) h2
    | cons d ds =>
      simp only [List.cons_append, List.cons.injEq] at heq
      obtain ⟨h3, h4⟩ := ih h1 h2 heq.2
      exact ⟨by rw [heq.1, h3], h4⟩

theorem digits_prefix_inj :
    ∀ (d1 : List Char) {d2 : List Char} {x1 x2 : Char} {t1 t2 : List Char},
      (∀ c ∈ d1, c.isDigit = true) → (∀ c ∈ d2, c.isDigit = true) →
      x1.isDigit = false → x2.isDigit = false →
      d1 ++ x1 :: t1 = d2 ++ x2 :: t2 → d1 = d2 := by
  intro d1
  induction d1 with
  | nil =>
    intro d2 x1 x2 t1 t2 _ hd2 hx1 _ heq
    cases d2 with
    | nil => rfl
    | cons c cs =>
      simp only [List.nil_append, List.cons_append, List.cons.injEq] at heq
      rw [heq.1] at hx1
      rw [hd2 c (List.mem_cons_self c cs)] at hx1
      exact absurd hx1 (by simp)
  | cons c cs ih =>
    intro d2 x1 x2 t1 t2 hd1 hd2 hx1 hx2 heq
    cases d2 with
    | nil =>
      simp only [List.cons_append, List.nil_append, List.cons.injEq] at heq
      rw [← heq.1] at hx2
      rw [hd1 c (List.mem_cons_self c cs)] at hx2
      exact absurd hx2 (by simp)
    | cons d ds =>
      simp only [List.cons_append, List.cons.injEq] at heq
      rw [heq.1,
        ih (fun a ha => hd1 a (List.mem_cons_of_mem c ha))
          (fun a ha => hd2 a (List.mem_cons_of_mem d ha)) hx1 hx2 heq.2]

theorem ext_mem_facts :
    ∀ e ∈ ext_whitelist, '_' ∉ e.data ∧ e.data.head? = some '.' := by
  decide

theorem fname_data (clean : String) (k : Nat) (e : String) :
    (fname clean k e).data = clean.data ++ '_' :: ((natStr (k + 1)).data ++ e.data) := by
  simp [fname, String.data_append]

theorem fname_inj {c1 c2 : String} {a b : Nat} {e1 e2 : String}
    (he1 : e1 ∈ ext_whitelist) (he2 : e2 ∈ ext_whitelist)
    (h : fname c1 a e1 = fname c2 b e2) : c1 = c2 ∧ a = b := by
  have hdata : c1.data ++ '_' :: ((natStr (a + 1)).data ++ e1.data)
      = c2.data ++ '_' :: ((natStr (b + 1)).data ++ e2.data) := by
    rw [← fname_data, ← fname_data, h]
  have hu1 : '_' ∉ (natStr (a + 1)).data ++ e1.data := by
    intro hm
    rcases List.mem_append.1 hm with hm | hm
    · exact natStr_no_underscore a hm
    · exact (ext_mem_facts e1 he1).1 hm
  have hu2 : '_' ∉ (natStr (b + 1)).data ++ e2.data := by
    intro hm
    rcases List.mem_append.1 hm with hm | hm
    · exact natStr_no_underscore b hm
    · exact (ext_mem_facts e2 he2).1 hm
  obtain ⟨hc, hrest⟩ := append_underscore_inj _ hu1 hu2 hdata
  refine ⟨?_, ?_⟩
  · cases c1; cases c2; exact congrArg String.mk (by simpa using hc)
  · obtain ⟨x1, t1, hx1⟩ : ∃ x t, e1.data = x :: t ∧ x = '.' := by
      rcases hxe : e1.data with _ | ⟨x, t⟩
      · have := (ext_mem_facts e1 he1).2; rw [hxe] at this; simp at this
      · have := (ext_mem_facts e1 he1).2; rw [hxe] at this
        simp only [List.head?_cons, Option.some.injEq] at this
        exact ⟨x, t, rfl, this⟩
    obtain ⟨x2, t2, hx2⟩ : ∃ x t, e2.data = x :: t ∧ x = '.' := by
      rcases hxe : e2.data with _ | ⟨x, t⟩
      · have := (ext_mem_facts e2 he2).2; rw [hxe] at this; simp at this
      · have := (ext_mem_facts e2 he2).2; rw [hxe] at this
        simp only [List.head?_cons, Option.some.injEq] at this
        exact ⟨x, t, rfl, this⟩
    rw [hx1.1, hx1.2, hx2.1, hx2.2] at hrest
    have hd := digits_prefix_inj (natStr (a + 1)).data
      (fun c hc => natDigits_isDigit (a + 1) c (natStr_data a ▸ hc))
      (fun c hc => natDigits_isDigit (b + 1) c (natStr_data b ▸ hc))
      (by decide) (by decide) hrest
    rw [natStr_data, natStr_data] at hd
    have := natDigits_inj hd
    omega

/-! ## Lemmas: the selection loop -/

theorem mem_insertDesc {x y : Int × RawHit} :
    ∀ {l : List (Int × RawHit)}, y ∈ insertDesc x l ↔ y = x ∨ y ∈ l := by
  intro l
  induction l with
  | nil => simp [insertDesc]
  | cons z zs ih =>
    simp only [insertDesc]
    split
    · simp only [List.mem_cons, ih]
      tauto
    · simp only [List.mem_cons]

theorem mem_sortByScoreDesc {y : Int × RawHit} {l : List (Int × RawHit)} :
    y ∈ sortByScoreDesc l ↔ y ∈ l := by
  suffices h : ∀ (l acc : List (Int × RawHit)),
      y ∈ l.foldl (fun acc x => insertDesc x acc) acc ↔ y ∈ acc ∨ y ∈ l by
    simpa [sortByScoreDesc] using h l []
  intro l
  induction l with
  | nil => simp
  | cons z zs ih =>
    intro acc
    simp only [List.foldl_cons, ih, mem_insertDesc, List.mem_cons]
    tauto

theorem selectLoop_mem {m : Nat} :
    ∀ {l : List (Int × RawHit)} {acc : List RawHit} {x : RawHit},
      x ∈ selectLoop m l acc → x ∈ acc ∨ ∃ s, (s, x) ∈ l := by
  intro l
  induction l with
  | nil =>
    intro acc x h
    simp only [selectLoop] at h
    exact Or.inl h
  | cons p ps ih =>
    intro acc x h
    obtain ⟨s, i⟩ := p
    simp only [selectLoop] at h
    split at h
    · exact Or.inl h
    · split at h
      · rcases ih h with h' | ⟨s', hs'⟩
        · rcases List.mem_append.1 h' with h'' | h''
          · exact Or.inl h''
          · rw [List.mem_singleton.1 h'']
            exact Or.inr ⟨s, List.mem_cons_self _ _⟩
        · exact Or.inr ⟨s', List.mem_cons_of_mem _ hs'⟩
      · rcases ih h with h' | ⟨s', hs'⟩
        · exact Or.inl h'
        · exact Or.inr ⟨s', List.mem_cons_of_mem _ hs'⟩

theorem selectLoop_length {m : Nat} :
    ∀ {l : List (Int × RawHit)} {acc : List RawHit},
      acc.length ≤ m → (selectLoop m l acc).length ≤ m := by
  intro l
  induction l with
  | nil =>
    intro acc h
    simp only [selectLoop]
    exact h
  | cons p ps ih =>
    intro acc h
    obtain ⟨s, i⟩ := p
    simp only [selectLoop]
    split
    · exact h
    · rename_i hlt
      split
      · apply ih
        simp only [List.length_append, List.length_singleton]
        omega
      · exact ih h

theorem selectLoop_scores (f : RawHit → Int) {m : Nat} :
    ∀ {l : List (Int × RawHit)} {acc : List RawHit},
      (∀ p ∈ l, p.1 = f p.2) → (∀ x ∈ acc, 10 < f x) →
      ∀ x ∈ selectLoop m l acc, 10 < f x := by
  intro l
  induction l with
  | nil =>
    intro acc _ hacc x hx
    simp only [selectLoop] at hx
    exact hacc x hx
  | cons p ps ih =>
    intro acc hl hacc x hx
    obtain ⟨s, i⟩ := p
    simp only [selectLoop] at hx
    split at hx
    · exact hacc x hx
    · split at hx
      · rename_i hcond
        refine ih (fun q hq => hl q (List.mem_cons_of_mem _ hq)) ?_ x hx
        intro y hy
        rcases List.mem_append.1 hy with hy' | hy'
        · exact hacc y hy'
        · rw [List.mem_singleton.1 hy']
          have hs : s = f i := hl (s, i) (List.mem_cons_self _ _)
          rw [← hs]
          exact hcond.1
      · exact ih (fun q hq => hl q (List.mem_cons_of_mem _ hq)) hacc x hx

theorem selectLoop_source_cap {m : Nat} :
    ∀ {l : List (Int × RawHit)} {acc : List RawHit},
      (∀ s : String, (acc.filter (fun i => pyLower i.source == s)).length ≤ 2) →
      ∀ s : String,
        ((selectLoop m l acc).filter (fun i => pyLower i.source == s)).length ≤ 2 := by
  intro l
  induction l with
  | nil =>
    intro acc hacc s
    simp only [selectLoop]
    exact hacc s
  | cons p ps ih =>
    intro acc hacc s
    obtain ⟨sc, img⟩ := p
    simp only [selectLoop]
    split
    · exact hacc s
    · split
      · rename_i hcond
        refine ih ?_ s
        intro t
        have hsplit : (List.filter (fun i => pyLower i.source == t) (acc ++ [img])).length
            = (List.filter (fun i => pyLower i.source == t) acc).length
              + (List.filter (fun i => pyLower i.source == t) [img]).length := by
          rw [List.filter_append, List.length_append]
        rw [hsplit]
        cases hbeq : (pyLower img.source == t) with
        | false =>
          have h0 : (List.filter (fun i => pyLower i.source == t) [img]).length = 0 := by
            simp [List.filter_singleton, hbeq]
          rw [h0]
          have := hacc t
          omega
        | true =>
          have h1 : (List.filter (fun i => pyLower i.source == t) [img]).length = 1 := by
            simp [List.filter_singleton, hbeq]
          rw [h1]
          have ht : t = pyLower img.source := (eq_of_beq hbeq).symm
          have hlt : (List.filter (fun i => pyLower i.source == t) acc).length < 2 := by
            rw [ht]
            exact hcond.2
          omega
      · exact ih hacc s

theorem select_best_images_subset {images : List RawHit} {part_number : String}
    {manufacturer : Option String} {max_images : Nat} {x : RawHit}
    (hx : x ∈ select_best_images images part_number manufacturer max_images) :
    x ∈ images := by
  rcases selectLoop_mem hx with h | ⟨s, hs⟩
  · exact absurd h (List.not_mem_nil x)
  · obtain ⟨img, himg, heq⟩ := List.mem_map.1 (mem_sortByScoreDesc.1 hs)
    rw [show x = img from congrArg Prod.snd heq.symm]
    exact himg

/-! ## Claim theorems -/

/-- C1 (code bug): the spec's two-tier source-trust rule (+20 for
preferred industrial sources, else +10 for marketplace sources, else
nothing) is broken in the code: the industrial loop's variable shadows
the hit's source label and compares itself with itself, so every hit —
whatever its source — receives +20, and the +10 tier is dead code.
Evaluations at the failing inputs: a hit whose source is `"ebay"`
(spec: +10) and a hit whose source matches neither set (spec: +0) both
score exactly the +20 industrial bonus. -/
theorem C1_source_bonus_eval :
    score_image_relevance ⟨"", "ebay", none, none, "", none, none⟩ "x" none = 20 ∧
    score_image_relevance ⟨"", "randomblog.example", none, none, "", none, none⟩
      "x" none = 20 := by
  decide

/-- C2 (confirmed): `_select_best_images` returns at most `max_images`
hits, every selected hit scores strictly above 10, and no lower-cased
source label occurs more than twice among the selected hits. -/
theorem C2_selection_invariants (images : List RawHit) (part_number : String)
    (manufacturer : Option String) (max_images : Nat) :
    (select_best_images images part_number manufacturer max_images).length ≤ max_images ∧
    (∀ img ∈ select_best_images images part_number manufacturer max_images,
        10 < score_image_relevance img part_number manufacturer) ∧
    (∀ s : String,
        ((select_best_images images part_number manufacturer max_images).filter
            (fun i => pyLower i.source == s)).length ≤ 2) := by
  refine ⟨?_, ?_, ?_⟩
  · exact selectLoop_length (by simp)
  · intro img himg
    refine selectLoop_scores
      (fun i => score_image_relevance i part_number manufacturer) ?_ ?_ img himg
    · intro p hp
      obtain ⟨i, _, heq⟩ := List.mem_map.1 (mem_sortByScoreDesc.1 hp)
      rw [← heq]
    · intro x hx
      exact absurd hx (List.not_mem_nil x)
  · intro s
    refine selectLoop_source_cap ?_ s
    intro t
    simp

/-- Witness for C2 at a concrete input. -/
theorem C2_selection_invariants_witness :
    (select_best_images [hitA] "CT-100" (some "Schneider") 4).length ≤ 4 ∧
    10 < score_image_relevance hitA "CT-100" (some "Schneider") ∧
    ((select_best_images [hitA] "CT-100" (some "Schneider") 4).filter
        (fun i => pyLower i.source == "sitea")).length ≤ 2 := by
  obtain ⟨h1, h2, h3⟩ := C2_selection_invariants [hitA] "CT-100" (some "Schneider") 4
  exact ⟨h1, h2 hitA (by decide), h3 "sitea"⟩

/-- C3 counterexample: with part number `"CT-100"` and manufacturer
`"Schneider"`, hit B (`"ct100 logo banner"`) does NOT score ≤ 0 — its
normalized title contains the normalized part number (`"ct100"`), so it
gets the +50 exact-match bonus (plus the unconditional +20 source
bonus, minus 20 for the two noise words) for a total of 50 — and it is
NOT excluded by selection. -/
theorem C3_counterexample :
    score_image_relevance hitB "CT-100" (some "Schneider") = 50 ∧
    ¬ score_image_relevance hitB "CT-100" (some "Schneider") ≤ 0 ∧
    hitB ∈ select_best_images [hitA, hitB] "CT-100" (some "Schneider") 4 := by
  decide

/-- C3 amended: hit A scores 114 ≥ 78 and is admitted first; hit B
scores 50 (not ≤ 0: its normalized title contains the normalized part
number), which exceeds the admission threshold, so selection admits A
then B rather than excluding B. -/
theorem C3_amended_scenario :
    score_image_relevance hitA "CT-100" (some "Schneider") = 114 ∧
    78 ≤ score_image_relevance hitA "CT-100" (some "Schneider") ∧
    score_image_relevance hitB "CT-100" (some "Schneider") = 50 ∧
    select_best_images [hitA, hitB] "CT-100" (some "Schneider") 4 = [hitA, hitB] := by
  decide

set_option maxRecDepth 20000 in
/-- C4 counterexample: the code's smallness threshold is
`len(content) > 1000`, not 1024: a 200-response with a 1010-byte body
(< 1024 bytes) that decodes as an image is accepted as a success, not
rejected as too small. -/
theorem C4_counterexample :
    (List.replicate 1010 (0 : Nat)).length < 1024 ∧
    (download_image (fun _ => true) (.response 200 (List.replicate 1010 (0 : Nat)))
        "http://x/a.jpg" "f.jpg" none).1.success = true := by
  decide

/-- C4 amended: a 200-response whose body is at most 1000 bytes (the
code's `> 1000` check failing) yields a failure result with the
too-small message and leaves no file at the assigned filename. -/
theorem C4_amended_small_body (validImage : List Nat → Bool) (url filename : String)
    (fileBefore : Option (List Nat)) (content : List Nat)
    (hsmall : content.length ≤ 1000) :
    (download_image validImage (.response 200 content) url filename fileBefore).1.success
        = false ∧
    (download_image validImage (.response 200 content) url filename fileBefore).1.error_message
        = some "File too small or empty" ∧
    (download_image validImage (.response 200 content) url filename fileBefore).2 = none := by
  have hgt : ¬ content.length > 1000 := by omega
  simp [download_image, hgt]

set_option maxRecDepth 20000 in
/-- Witness for C4's amended claim: the spec's concrete 512-byte body
is rejected and leaves no file. -/
theorem C4_amended_small_body_witness :
    (List.replicate 512 (0 : Nat)).length ≤ 1000 ∧
    (download_image (fun _ => true) (.response 200 (List.replicate 512 (0 : Nat)))
        "http://x/a.jpg" "f.jpg" none).1.success = false ∧
    (download_image (fun _ => true) (.response 200 (List.replicate 512 (0 : Nat)))
        "http://x/a.jpg" "f.jpg" none).2 = none := by
  have h := C4_amended_small_body (fun _ => true) "http://x/a.jpg" "f.jpg" none
    (List.replicate 512 (0 : Nat)) (by rw [List.length_replicate]; omega)
  exact ⟨by rw [List.length_replicate]; omega, h.1, h.2.2⟩

/-- C5 (confirmed): starting from no file at the assigned filename,
after `download_image` a file exists there exactly when the returned
result has `success = true` — every failure path (non-200 status,
undersized body, invalid image, timeout, other exception) leaves no
file, and the success path leaves exactly the downloaded content. -/
theorem C5_file_presence_matches_success (validImage : List Nat → Bool)
    (outcome : HttpOutcome) (url filename : String) :
    (download_image validImage outcome url filename none).2.isSome
      = (download_image validImage outcome url filename none).1.success := by
  cases outcome with
  | response status content =>
    by_cases h200 : status = 200
    · subst h200
      by_cases hlen : content.length > 1000
      · by_cases hv : validImage content <;> simp [download_image, hlen, hv]
      · simp [download_image, hlen]
    · simp [download_image, h200]
  | timeout => rfl
  | failure msg => rfl

/-- C6 (confirmed): at every observable state of a download job —
started, processing, completed, failed — the `downloaded_images` count
equals the number of results with `success = true` (the failed update
zeroes the count while the results list is still empty). -/
theorem C6_downloaded_count_invariant (download_id : String) (total : Nat)
    (results : List DownloadResult) (orch_failure : Bool) :
    ∀ st ∈ download_job_states download_id total results orch_failure,
      st.downloaded_images = (st.results.filter (fun r => r.success)).length := by
  intro st hst
  cases orch_failure with
  | false =>
    simp only [download_job_states, if_neg (by simp : ¬ (false = true))] at hst
    rcases List.mem_cons.1 hst with rfl | hst
    · rfl
    rcases List.mem_cons.1 hst with rfl | hst
    · rfl
    rcases List.mem_cons.1 hst with rfl | hst
    · rfl
    exact absurd hst (List.not_mem_nil st)
  | true =>
    simp only [download_job_states, if_pos rfl] at hst
    rcases List.mem_cons.1 hst with rfl | hst
    · rfl
    rcases List.mem_cons.1 hst with rfl | hst
    · rfl
    rcases List.mem_cons.1 hst with rfl | hst
    · rfl
    exact absurd hst (List.not_mem_nil st)

/-- Witness for C6 at a concrete state of a concrete job. -/
theorem C6_downloaded_count_invariant_witness :
    (JobState.mk "started" 2 0 [] none).downloaded_images
      = ((JobState.mk "started" 2 0 [] none).results.filter
          (fun r => r.success)).length :=
  C6_downloaded_count_invariant "j" 2 [resOk] false _ (by decide)

/-! ## Lemmas: grouping for the archiver -/

theorem addToGroups_sizes (r : DownloadResult) :
    ∀ gs : List (String × List DownloadResult),
      ((addToGroups r gs).map (fun g => g.2.length)).sum
        = ((gs.map (fun g => g.2.length)).sum) + 1 := by
  intro gs
  induction gs with
  | nil => simp [addToGroups]
  | cons g0 gs ih =>
    simp only [addToGroups]
    split
    · simp only [List.map_cons, List.sum_cons, List.length_append,
        List.length_singleton]
      omega
    · simp only [List.map_cons, List.sum_cons, ih]
      omega

theorem part_groups_sizes_aux :
    ∀ (l : List DownloadResult) (gs : List (String × List DownloadResult)),
      (∀ r ∈ l, r.success = true ∧ r.filename ≠ "") →
      ((l.foldl (fun gs r =>
          if r.success && !(r.filename == "") then addToGroups r gs else gs) gs).map
            (fun g => g.2.length)).sum
        = ((gs.map (fun g => g.2.length)).sum) + l.length := by
  intro l
  induction l with
  | nil => intro gs _; simp
  | cons r rest ih =>
    intro gs h
    have hr := h r (List.mem_cons_self r rest)
    simp only [List.foldl_cons]
    rw [if_pos (by simp [hr.1, hr.2])]
    rw [ih _ (fun x hx => h x (List.mem_cons_of_mem r hx)), addToGroups_sizes]
    simp only [List.length_cons]
    omega

theorem part_groups_sizes {l : List DownloadResult}
    (h : ∀ r ∈ l, r.success = true ∧ r.filename ≠ "") :
    ((part_groups l).map (fun g => g.2.length)).sum = l.length := by
  have := part_groups_sizes_aux l [] h
  simpa [part_groups] using this

theorem addToGroups_forall {Q : DownloadResult → Prop} {r : DownloadResult}
    (hr : Q r) :
    ∀ {gs : List (String × List DownloadResult)},
      (∀ g ∈ gs, ∀ x ∈ g.2, Q x) →
      ∀ g ∈ addToGroups r gs, ∀ x ∈ g.2, Q x := by
  intro gs
  induction gs with
  | nil =>
    intro _ g hg x hx
    rcases List.mem_singleton.1 hg with rfl
    rcases List.mem_singleton.1 hx with rfl
    exact hr
  | cons g0 gs ih =>
    intro hgs g hg x hx
    simp only [addToGroups] at hg
    split at hg
    · rcases List.mem_cons.1 hg with rfl | hg'
      · rcases List.mem_append.1 hx with hx' | hx'
        · exact hgs g0 (List.mem_cons_self g0 gs) x hx'
        · rw [List.mem_singleton.1 hx']
          exact hr
      · exact hgs g (List.mem_cons_of_mem g0 hg') x hx
    · rcases List.mem_cons.1 hg with rfl | hg'
      · exact hgs g (List.mem_cons_self g gs) x hx
      · exact ih (fun g' hg'' => hgs g' (List.mem_cons_of_mem g0 hg'')) g hg' x hx

theorem part_groups_forall (Q : DownloadResult → Prop) :
    ∀ (l : List DownloadResult) (gs : List (String × List DownloadResult)),
      (∀ r ∈ l, Q r) → (∀ g ∈ gs, ∀ x ∈ g.2, Q x) →
      ∀ g ∈ l.foldl (fun gs r =>
          if r.success && !(r.filename == "") then addToGroups r gs else gs) gs,
        ∀ x ∈ g.2, Q x := by
  intro l
  induction l with
  | nil =>
    intro gs _ hgs
    simpa using hgs
  | cons r rest ih =>
    intro gs hl hgs
    simp only [List.foldl_cons]
    by_cases hc : (r.success && !(r.filename == "")) = true
    · rw [if_pos hc]
      exact ih _ (fun x hx => hl x (List.mem_cons_of_mem r hx))
        (addToGroups_forall (hl r (List.mem_cons_self r rest)) hgs)
    · rw [if_neg hc]
      exact ih _ (fun x hx => hl x (List.mem_cons_of_mem r hx)) hgs

theorem snd_mem_of_mem_enum {α : Type} {l : List α} {p : Nat × α}
    (hp : p ∈ l.enum) : p.2 ∈ l := by
  obtain ⟨i, x⟩ := p
  obtain ⟨hi, hx⟩ := List.mem_enum hp
  rw [hx]
  exact l.getElem_mem hi

theorem filterMap_if_eq_map {α β : Type} (p : α → Bool) (f : α → β) :
    ∀ (l : List α), (∀ x ∈ l, p x = true) →
      l.filterMap (fun x => if p x then some (f x) else none) = l.map f := by
  intro l
  induction l with
  | nil => intro _; rfl
  | cons x xs ih =>
    intro h
    have hx := h x (List.mem_cons_self x xs)
    simp only [List.filterMap_cons, hx, if_pos, List.map_cons]
    rw [ih (fun y hy => h y (List.mem_cons_of_mem x hy))]

theorem flatMap_congr_mem {α β : Type} {l : List α} {f g : α → List β}
    (h : ∀ x ∈ l, f x = g x) : l.flatMap f = l.flatMap g := by
  induction l with
  | nil => rfl
  | cons x xs ih =>
    simp only [List.flatMap_cons]
    rw [h x (List.mem_cons_self x xs),
      ih (fun y hy => h y (List.mem_cons_of_mem x hy))]

/-- C7 (confirmed): for a completed download job (whose successful
results all have their files on storage, as the fetcher guarantees),
the zip reference is present iff at least one result succeeded; the
entries `create_zip_file` writes are exactly the spec's entries — one
per successful result, named
`sanitizedOwner/sanitizedOwner_<ordinal><ext>` with ordinals `1..n`
per owner in grouped order — and their number equals the number of
successful results. -/
theorem C7_archive_contents (download_id : String) (total : Nat)
    (results : List DownloadResult) (fileExists : String → Bool)
    (hok : ∀ r ∈ results, r.success = true →
        r.filename ≠ "" ∧ fileExists r.filename = true) :
    (∀ st ∈ download_job_states download_id total results false,
        st.status = "completed" →
          (st.zip_file.isSome ↔ results.filter (fun r => r.success) ≠ [])) ∧
    create_zip_file fileExists (results.filter (fun r => r.success))
      = specArchiveEntries (results.filter (fun r => r.success)) ∧
    (specArchiveEntries (results.filter (fun r => r.success))).length
      = (results.filter (fun r => r.success)).length := by
  have hsucc : ∀ r ∈ results.filter (fun r => r.success),
      r.success = true ∧ r.filename ≠ "" ∧ fileExists r.filename = true := by
    intro r hr
    have hm := List.mem_filter.1 hr
    exact ⟨hm.2, (hok r hm.1 hm.2).1, (hok r hm.1 hm.2).2⟩
  refine ⟨?_, ?_, ?_⟩
  · intro st hst hcomp
    simp only [download_job_states, if_neg (by simp : ¬ (false = true))] at hst
    rcases List.mem_cons.1 hst with rfl | hst
    · exact absurd hcomp (by simp)
    rcases List.mem_cons.1 hst with rfl | hst
    · exact absurd hcomp (by simp)
    rcases List.mem_cons.1 hst with rfl | hst
    · show (if (results.filter (fun r => r.success)).isEmpty then none
          else some ("parts_images_" ++ download_id ++ ".zip") : Option String).isSome
          ↔ results.filter (fun r => r.success) ≠ []
      by_cases he : (results.filter (fun r => r.success)).isEmpty
      · simp [he, List.isEmpty_iff.1 he]
      · simp only [if_neg he, Option.isSome_some, true_iff]
        intro hc
        exact he (by simp [hc])
    · exact absurd hst (List.not_mem_nil st)
  · apply flatMap_congr_mem
    intro g hg
    have hgQ : ∀ x ∈ g.2, fileExists x.filename = true :=
      part_groups_forall (fun r => fileExists r.filename = true) _ []
        (fun r hr => (hsucc r hr).2.2) (by simp) g hg
    exact filterMap_if_eq_map _ _ _
      (fun p hp => hgQ p.2 (snd_mem_of_mem_enum hp))
  · rw [specArchiveEntries, List.length_flatMap]
    have hmap : List.map (List.length ∘ fun g =>
          (g.2.enum.map (fun p =>
            sanitizePart g.1 ++ "/" ++ sanitizePart g.1 ++ "_" ++
              natStr (p.1 + 1) ++ zipEntryExt p.2.filename)))
          (part_groups (results.filter (fun r => r.success)))
        = (part_groups (results.filter (fun r => r.success))).map
            (fun g => g.2.length) := by
      apply List.map_congr_left
      intro g _
      simp [List.enum_length]
    rw [hmap, part_groups_sizes (fun r hr => ⟨(hsucc r hr).1, (hsucc r hr).2.1⟩)]

/-- Witness for C7 at a concrete one-result job. -/
theorem C7_archive_contents_witness :
    create_zip_file (fun _ => true) ([resOk].filter (fun r => r.success))
      = specArchiveEntries ([resOk].filter (fun r => r.success)) ∧
    (specArchiveEntries ([resOk].filter (fun r => r.success))).length
      = ([resOk].filter (fun r => r.success)).length := by
  have h := C7_archive_contents "j" 1 [resOk] (fun _ => true) (by decide)
  exact ⟨h.2.1, h.2.2⟩

/-! ## Lemmas: the download work list -/

theorem extFromUrl_mem (url : String) : extFromUrl url ∈ ext_whitelist := by
  rw [extFromUrl]
  split
  · rename_i h
    simpa using h
  · decide

theorem generate_filename_eq_fname (pn : String) (i : Nat) (url : String) :
    generate_filename pn i url = fname (sanitizePart pn) i (extFromUrl url) := rfl

theorem imagesLoop_shape (pn : String) :
    ∀ (images : List ImageResult) (i : Nat) (t : String × String × String),
      t ∈ imagesLoop pn i images →
      ∃ k, i ≤ k ∧ ∃ e ∈ ext_whitelist, t.2.2 = fname (sanitizePart pn) k e := by
  intro images
  induction images with
  | nil =>
    intro i t ht
    simp [imagesLoop] at ht
  | cons img rest ih =>
    intro i t ht
    rw [imagesLoop] at ht
    split at ht
    · rcases List.mem_cons.1 ht with rfl | ht'
      · exact ⟨i, Nat.le_refl i, extFromUrl img.original_url, extFromUrl_mem _, rfl⟩
      · obtain ⟨k, hk, e, he, hname⟩ := ih (i + 1) t ht'
        exact ⟨k, by omega, e, he, hname⟩
    · obtain ⟨k, hk, e, he, hname⟩ := ih (i + 1) t ht
      exact ⟨k, by omega, e, he, hname⟩

theorem imagesLoop_names_pairwise (pn : String) :
    ∀ (images : List ImageResult) (i : Nat),
      ((imagesLoop pn i images).map (fun t => t.2.2)).Pairwise
        (fun a b => a ≠ b) := by
  intro images
  induction images with
  | nil =>
    intro i
    simp [imagesLoop]
  | cons img rest ih =>
    intro i
    rw [imagesLoop]
    split
    · simp only [List.map_cons]
      refine List.Pairwise.cons ?_ (ih (i + 1))
      intro nm hnm
      obtain ⟨t, ht, rfl⟩ := List.mem_map.1 hnm
      obtain ⟨k, hk, e, he, hname⟩ := imagesLoop_shape pn rest (i + 1) t ht
      show fname (sanitizePart pn) i (extFromUrl img.original_url) ≠ t.2.2
      rw [hname]
      intro heq
      have := (fname_inj (extFromUrl_mem _) he heq).2
      omega
    · exact ih (i + 1)

theorem partsLoop_shape :
    ∀ (l : List PartSearchResult) (t : String × String × String),
      t ∈ partsLoop l →
      ∃ r ∈ l, ∃ k, ∃ e ∈ ext_whitelist,
        t.2.2 = fname (sanitizePart r.part_number) k e := by
  intro l
  induction l with
  | nil =>
    intro t ht
    simp [partsLoop] at ht
  | cons r rest ih =>
    intro t ht
    rw [partsLoop] at ht
    rcases List.mem_append.1 ht with h | h
    · split at h
      · obtain ⟨k, _, e, he, hname⟩ := imagesLoop_shape r.part_number r.images 0 t h
        exact ⟨r, List.mem_cons_self r rest, k, e, he, hname⟩
      · exact absurd h (List.not_mem_nil t)
    · obtain ⟨r', hr', hrest⟩ := ih t h
      exact ⟨r', List.mem_cons_of_mem r hr', hrest⟩

theorem partsLoop_names_pairwise :
    ∀ (l : List PartSearchResult),
      l.Pairwise (fun r1 r2 =>
        sanitizePart r1.part_number ≠ sanitizePart r2.part_number) →
      ((partsLoop l).map (fun t => t.2.2)).Pairwise (fun a b => a ≠ b) := by
  intro l
  induction l with
  | nil =>
    intro _
    simp [partsLoop]
  | cons r rest ih =>
    intro hp
    obtain ⟨hrel, htail⟩ := List.pairwise_cons.1 hp
    rw [partsLoop, List.map_append, List.pairwise_append]
    refine ⟨?_, ih htail, ?_⟩
    · by_cases hs : r.search_success = true
      · rw [if_pos hs]
        exact imagesLoop_names_pairwise r.part_number r.images 0
      · rw [if_neg hs]
        simp
    · intro x hx y hy
      obtain ⟨t, ht, rfl⟩ := List.mem_map.1 hx
      obtain ⟨u, hu, rfl⟩ := List.mem_map.1 hy
      have ht' : t ∈ imagesLoop r.part_number 0 r.images := by
        by_cases hs : r.search_success = true
        · rwa [if_pos hs] at ht
        · rw [if_neg hs] at ht
          exact absurd ht (List.not_mem_nil t)
      obtain ⟨k, _, e, he, hname⟩ := imagesLoop_shape r.part_number r.images 0 t ht'
      obtain ⟨r', hr', k', e', he', hname'⟩ := partsLoop_shape rest u hu
      rw [hname, hname']
      intro heq
      exact hrel r' hr' (fname_inj he he' heq).1

/-- C8 counterexample: the download endpoint does not deduplicate part
numbers, so a search whose results list the same part number twice
(possible: the search endpoint runs one query per requested part
number, duplicates included) assigns the same filename twice — the
filenames of the job's download results are NOT pairwise distinct. -/
theorem C8_counterexample :
    ¬ ((images_to_download [rP, rP] none).map (fun t => t.2.2)).Pairwise
        (fun a b => a ≠ b) := by
  decide

/-- C8 amended: whenever the selected search results have pairwise
distinct sanitized part numbers (in particular: no duplicated part
number and no two part numbers that sanitize to the same folder name),
the assigned filenames of the job's download entries are pairwise
distinct.  (The third component of each `images_to_download` triple is
exactly the filename carried by the corresponding `DownloadResult`.) -/
theorem C8_amended_distinct (search_results : List PartSearchResult)
    (part_numbers : Option (List String))
    (hdist : (filterByParts search_results part_numbers).Pairwise
        (fun r1 r2 => sanitizePart r1.part_number ≠ sanitizePart r2.part_number)) :
    ((images_to_download search_results part_numbers).map
        (fun t => t.2.2)).Pairwise (fun a b => a ≠ b) :=
  partsLoop_names_pairwise _ hdist

/-- Witness for C8's amended claim at a concrete two-part job. -/
theorem C8_amended_distinct_witness :
    ((images_to_download [rP, rQ] none).map (fun t => t.2.2)).Pairwise
      (fun a b => a ≠ b) :=
  C8_amended_distinct [rP, rQ] none (by decide)

/-- C9 (confirmed): every image returned by the re-process pipeline has
an `original_url` outside the exclusion list, and every raw hit whose
original URL or link URL is on the (non-empty, hence applied) list is
dropped by `_filter_previous_images` before scoring and selection. -/
theorem C9_exclusion_filter (raw_images : List RawHit) (part_number : String)
    (manufacturer : Option String) (num_results : Nat) (exclude_urls : List String)
    (q : String) :
    (∀ img ∈ (reprocess_pipeline raw_images part_number manufacturer num_results
        exclude_urls q).images, img.original_url ∉ exclude_urls) ∧
    (∀ h ∈ raw_images,
        (h.original.getD "" ∈ exclude_urls ∨ h.link.getD "" ∈ exclude_urls) →
          h ∉ filter_previous_images raw_images exclude_urls) := by
  constructor
  · intro img hm
    obtain ⟨h, hh, heq⟩ := List.mem_map.1 hm
    have hfilt : h ∈ filter_previous_images raw_images exclude_urls :=
      select_best_images_subset hh
    rw [← heq]
    rw [filter_previous_images] at hfilt
    split at hfilt
    · rename_i hempty
      rw [List.isEmpty_iff.1 hempty]
      exact List.not_mem_nil _
    · have hp := (List.mem_filter.1 hfilt).2
      simp only [Bool.and_eq_true, Bool.not_eq_true'] at hp
      have horig : h.original.getD "" ∉ exclude_urls := by
        have := hp.1
        simpa using this
      have hlink : h.link.getD "" ∉ exclude_urls := by
        have := hp.2
        simpa using this
      show (toImageResult h).original_url ∉ exclude_urls
      cases horg : h.original with
      | some v =>
        have : (toImageResult h).original_url = v := by
          simp [toImageResult, horg]
        rw [this]
        rw [horg] at horig
        simpa using horig
      | none =>
        have : (toImageResult h).original_url = h.link.getD "" := by
          simp [toImageResult, horg]
        rw [this]
        exact hlink
  · intro h _ hor hmem
    rw [filter_previous_images] at hmem
    split at hmem
    · rename_i hempty
      rw [List.isEmpty_iff.1 hempty] at hor
      rcases hor with hc | hc <;> exact absurd hc (List.not_mem_nil _)
    · have hp := (List.mem_filter.1 hmem).2
      simp only [Bool.and_eq_true, Bool.not_eq_true'] at hp
      rcases hor with hc | hc
      · exact absurd hc (by simpa using hp.1)
      · exact absurd hc (by simpa using hp.2)

/-- Witness for C9: a hit whose original URL is excluded is dropped. -/
theorem C9_exclusion_filter_witness :
    hitBad ∉ filter_previous_images [hitBad] ["http://bad"] :=
  (C9_exclusion_filter [hitBad] "P" none 4 ["http://bad"] "q").2 hitBad
    (by decide) (Or.inl (by decide))

/-- C10 (confirmed): a search id stored by `search_part_images` lives in
the same `download_tasks` map the download-status endpoint reads, so
polling it is not a 404: it answers `"completed"` with zero counts, an
empty result list, and no zip reference (every download-specific key is
read through a defaulted `get`). -/
theorem C10_search_id_download_status (tasks : List (String × TaskEntry))
    (search_id : String) (results : List PartSearchResult) :
    get_download_status ((search_id, search_task_entry results) :: tasks) search_id
      = .ok { download_id := search_id, status := "completed", total_images := 0,
              downloaded_images := 0, results := [], zip_file := none } := by
  simp [get_download_status, lookupTask, search_task_entry]

end PartsAI
